import Mathlib

/-!
Verification of the WPNet wavelet-denoising training pipeline
(`research_pipelines/denoising_with_wavelets/pytorch_wavelet_train.py`).

Real-valued tensors are modelled over `ℚ`.  A single image plane is an
unbounded grid `ℕ → ℕ → ℚ`; pixel (y, x) of the source tensor corresponds to
the value of the function at (y, x).  The opaque scalar-producing
collaborators of the design (the MIX pixel criterion, the DISTS perceptual
loss, the per-level SmoothL1 values, the PSNR accuracy measure) are abstracted
as rational inputs, matching the design's treatment of them as black boxes
that return a scalar.
-/

namespace WPNet

/-- An image plane: pixel value at row `y`, column `x`. -/
abbrev Img : Type := ℕ → ℕ → ℚ

/-- The everywhere-zero image. -/
def zero_img : Img := fun _ _ => 0

/-- The constant image of value `v`. -/
def const_img (v : ℚ) : Img := fun _ _ => v

/-- The four Haar sub-bands of one decomposition level. -/
structure Subbands where
  ll : Img
  lh : Img
  hl : Img
  hh : Img

/-- Modelled from the spec: the file `utils/haar_utils.py` (class
`HaarForward`) is imported by the train script but is not among the sources.
Per the spec, `forward` applies a 2D Haar discrete wavelet transform producing
four equally-shaped sub-bands at half resolution, and the forward transform is
"energy-preserving" for this convention, which fixes the orthonormal
coefficient 1/2: each sub-band value combines the four pixels of a 2×2 block
with signs ±1 and is divided by 2. -/
def HaarForward (x : Img) : Subbands where
  ll := fun i j =>
    (x (2*i) (2*j) + x (2*i) (2*j+1) + x (2*i+1) (2*j) + x (2*i+1) (2*j+1)) / 2
  lh := fun i j =>
    (x (2*i) (2*j) + x (2*i) (2*j+1) - x (2*i+1) (2*j) - x (2*i+1) (2*j+1)) / 2
  hl := fun i j =>
    (x (2*i) (2*j) - x (2*i) (2*j+1) + x (2*i+1) (2*j) - x (2*i+1) (2*j+1)) / 2
  hh := fun i j =>
    (x (2*i) (2*j) - x (2*i) (2*j+1) - x (2*i+1) (2*j) + x (2*i+1) (2*j+1)) / 2

/-- Modelled from the spec: the class `HaarInverse` of `utils/haar_utils.py`
is not among the sources.  Per the spec it is the exact algebraic inverse of
`HaarForward` ("the design requires inverse(forward(x)) ≈ x"); for the
energy-preserving forward coefficient 1/2 this forces the same coefficient 1/2
on the inverse (the 2×2 Haar matrix is orthogonal and involutive). -/
def HaarInverse (s : Subbands) : Img := fun y x =>
  if y % 2 = 0 then
    if x % 2 = 0 then
      (s.ll (y/2) (x/2) + s.lh (y/2) (x/2) + s.hl (y/2) (x/2) + s.hh (y/2) (x/2)) / 2
    else
      (s.ll (y/2) (x/2) + s.lh (y/2) (x/2) - s.hl (y/2) (x/2) - s.hh (y/2) (x/2)) / 2
  else
    if x % 2 = 0 then
      (s.ll (y/2) (x/2) - s.lh (y/2) (x/2) + s.hl (y/2) (x/2) - s.hh (y/2) (x/2)) / 2
    else
      (s.ll (y/2) (x/2) - s.lh (y/2) (x/2) - s.hl (y/2) (x/2) + s.hh (y/2) (x/2)) / 2

/-- `DWTHaar.forward` (train script lines 40–52): applies `HaarForward` and
splits the stacked output channels into the four sub-bands.  The channel
packing/unpacking of the source is represented directly by the `Subbands`
record. -/
def DWTHaar (x : Img) : Subbands := HaarForward x

/-- `IWTHaar.forward` (lines 55–61): concatenates the four sub-bands along the
channel dimension and applies `HaarInverse`. -/
def IWTHaar (ll lh hl hh : Img) : Img := HaarInverse ⟨ll, lh, hl, hh⟩

/-- One level of the predicted wavelet pyramid, as dissected by
`torch.split(pred_wavelets_pyramid[i], 3, dim=1)` (line 294): an approximation
band followed by three detail bands. -/
structure PyramidLevel where
  approx : Img
  lh : Img
  hl : Img
  hh : Img

/-- One pass of the reconstruction loop of `_compute_deep_iwt_loss`
(line 295): `composed_image = self.iwt(composed_image, lh, hl, hh) * 2`. -/
def compose_step (composed : Img) (lvl : PyramidLevel) : Img :=
  fun y x => IWTHaar composed lvl.lh lvl.hl lvl.hh y x * 2

/-- The reconstruction performed by `_compute_deep_iwt_loss` (lines 290–299)
before scoring: start from the deepest level's approximation slice
(`pred_wavelets_pyramid[-1][:, :3]`, line 291) and run `compose_step` for
level `i` from `L-1` down to `0`.  `none` models the `IndexError` that the
indexing `pred_wavelets_pyramid[-1]` raises on an empty pyramid. -/
def deep_iwt_compose (pyr : List PyramidLevel) : Option Img :=
  pyr.getLast?.map (fun deepest => pyr.reverse.foldl compose_step deepest.approx)

/-- Value of the reconstructed image at one pixel. -/
def deep_iwt_compose_at (pyr : List PyramidLevel) (y x : ℕ) : Option ℚ :=
  (deep_iwt_compose pyr).map (fun img => img y x)

/-- `_compute_deep_iwt_loss` (lines 290–299): scores the reconstruction
against the ground-truth image with the (opaque) pixel criterion. -/
def compute_deep_iwt_loss (criterion : Img → Img → ℚ)
    (pyr : List PyramidLevel) (gt : Img) : Option ℚ :=
  (deep_iwt_compose pyr).map (fun img => criterion img gt)

/-- `_add_loss` (lines 268–271): `loss2` when `loss1` is `None`, otherwise the
sum. -/
def add_loss : Option ℚ → ℚ → ℚ
  | none, l2 => l2
  | some l1, l2 => l1 + l2

/-- Loop of `_compute_wavelets_loss` (lines 278–286).  The per-level SmoothL1
values `self.wavelets_criterion(pred_wavelets_pyramid[i][:, 3:], gt_wavelets)`
are abstracted as the list `level_losses` (level 0 first).  Line 282 reads
`_loss = self._add_loss(_loss, self.wavelets_criterion(...)) * _loss_scale`:
the whole accumulated sum is multiplied by the current scale, after which
`_loss_scale *= factor` (line 284). -/
def wavelets_loss_aux (factor : ℚ) : List ℚ → Option ℚ → ℚ → Option ℚ
  | [], acc, _ => acc
  | l :: rest, acc, scale =>
      wavelets_loss_aux factor rest (some (add_loss acc l * scale)) (scale * factor)

/-- `_compute_wavelets_loss` (lines 273–288) as a function of the per-level
criterion values: the accumulator starts at `None` and the scale at `1.0`; the
final accumulator is returned (`None` for an empty pyramid). -/
def compute_wavelets_loss (level_losses : List ℚ) (factor : ℚ) : Option ℚ :=
  wavelets_loss_aux factor level_losses none 1

/-- The accumulation the spec describes for the pyramid loss ("contribution of
level i is weighted by `factor^i`"), written level by level, for comparison
with `compute_wavelets_loss`. -/
def spec_wavelets_loss_from (factor : ℚ) (i : ℕ) : List ℚ → ℚ
  | [] => 0
  | l :: rest => l * factor ^ i + spec_wavelets_loss_from factor (i + 1) rest

/-- The spec-side pyramid loss: the sum over levels of
`level_loss i * factor ^ i`. -/
def spec_wavelets_loss (level_losses : List ℚ) (factor : ℚ) : ℚ :=
  spec_wavelets_loss_from factor 0 level_losses

/-- The opaque scalar loss sources appearing in `_train_step`. -/
inductive LossAtom where
  | imagesCriterion
  | perceptualLoss
  | waveletsPyramidLoss
  | deepIwtLoss
  deriving DecidableEq

/-- Arithmetic shape of the scalar loss composed in `_train_step`. -/
inductive LossExpr where
  | atom : LossAtom → LossExpr
  | add : LossExpr → LossExpr → LossExpr
  | mul : LossExpr → ℚ → LossExpr
  | div : LossExpr → ℚ → LossExpr

/-- Evaluate a loss expression given values of the atomic losses. -/
def eval_loss (v : LossAtom → ℚ) : LossExpr → ℚ
  | .atom a => v a
  | .add e1 e2 => eval_loss v e1 + eval_loss v e2
  | .mul e c => eval_loss v e * c
  | .div e c => eval_loss v e / c

/-- Whether an atomic loss occurs in a composed loss expression. -/
def mentions_loss : LossExpr → LossAtom → Bool
  | .atom b, a => decide (a = b)
  | .add e1 e2, a => mentions_loss e1 a || mentions_loss e2 a
  | .mul e _, a => mentions_loss e a
  | .div e _, a => mentions_loss e a

/-- The `total_loss` composed by `_train_step` (lines 340–351):
`loss = self.images_criterion(pred_image, clear_image)`; if a perceptual loss
is configured, `loss = loss / 2 + self.perceptual_loss(...) / 2`; finally
`total_loss = loss + wloss * 0.2` where
`wloss = self._compute_wavelets_loss(pred_wavelets_pyramid, clear_image)`. -/
def train_total_loss_expr (has_perceptual : Bool) : LossExpr :=
  let loss : LossExpr := .atom .imagesCriterion
  let loss : LossExpr :=
    if has_perceptual then .add (.div loss 2) (.div (.atom .perceptualLoss) 2)
    else loss
  .add loss (.mul (.atom .waveletsPyramidLoss) 0.2)

/-- The state-changing operations of one batch of `_train_step`
(lines 332–355), in program order. -/
inductive TrainOp where
  | zeroGrad
  | modelForward
  | backward (loss : LossExpr)
  | clipGradNorm (max_norm : ℚ)
  | optimizerStep

/-- The per-batch operation sequence of `_train_step` (lines 332–355):
`optimizer.zero_grad()`, `self.model(noisy_image)`, `total_loss.backward()`,
`clip_grad_norm_(self.model.parameters(), 2.0)`, `optimizer.step()`. -/
def train_batch_ops (has_perceptual : Bool) : List TrainOp :=
  [.zeroGrad, .modelForward,
   .backward (train_total_loss_expr has_perceptual),
   .clipGradNorm 2, .optimizerStep]

/-- Recognises the backward operation. -/
def is_backward : TrainOp → Bool
  | .backward _ => true
  | _ => false

/-- Recognises the gradient-clipping operation. -/
def is_clip : TrainOp → Bool
  | .clipGradNorm _ => true
  | _ => false

/-- Recognises the optimiser-step operation. -/
def is_opt_step : TrainOp → Bool
  | .optimizerStep => true
  | _ => false

/-- Recognises the model forward pass. -/
def is_model_forward : TrainOp → Bool
  | .modelForward => true
  | _ => false

/-- The maximal gradient norms passed to clip operations of a sequence. -/
def clip_norms (ops : List TrainOp) : List ℚ :=
  ops.filterMap (fun op => match op with
    | .clipGradNorm c => some c
    | _ => none)

/-- Opaque per-batch criterion values: the MIX pixel criterion, the DISTS
perceptual loss and the wavelet pyramid loss evaluated on that batch. -/
structure BatchLosses where
  pixel : ℚ
  perceptual : ℚ
  wavelets : ℚ

/-- The per-batch `loss` variable of `_train_step` (lines 340–344): the pixel
criterion, blended 50/50 with the perceptual loss when one is configured. -/
def batch_pixel_loss (has_perceptual : Bool) (b : BatchLosses) : ℚ :=
  if has_perceptual then b.pixel / 2 + b.perceptual / 2 else b.pixel

/-- The per-batch `total_loss` of `_train_step` (line 351). -/
def batch_total_loss (has_perceptual : Bool) (b : BatchLosses) : ℚ :=
  batch_pixel_loss has_perceptual b + b.wavelets * 0.2

/-- `avg_epoch_loss` as accumulated by `_train_step` (line 364):
`avg_epoch_loss += loss.item() / len(self.train_dataloader)` — only the
pixel-term `loss` is accumulated, once per batch. -/
def train_epoch_avg_loss (has_perceptual : Bool) (batches : List BatchLosses) : ℚ :=
  batches.foldl
    (fun acc b => acc + batch_pixel_loss has_perceptual b / (batches.length : ℚ)) 0

/-- Outcome of one `_save_best_checkpoint` call (lines 462–491). -/
structure CheckpointOutcome where
  latest_saved : Bool
  best_saved : Bool
  new_best : ℚ
  deriving DecidableEq

/-- `_save_best_checkpoint` (lines 462–491): the "latest" record is written
unconditionally (line 480); the "best" record is written and
`best_test_score` updated exactly when
`self.best_test_score - avg_acc_rate < -1E-5` (line 485). -/
def save_best_checkpoint (best_test_score avg_acc_rate : ℚ) : CheckpointOutcome :=
  if best_test_score - avg_acc_rate < -(1 / 100000) then
    ⟨true, true, avg_acc_rate⟩
  else
    ⟨true, false, best_test_score⟩

/-- Fold `save_best_checkpoint` over a sequence of per-epoch validation
accuracies starting from the best score `best0` (`self.best_test_score = 0`
at construction, line 115); returns whether the "best" record was written at
each epoch. -/
def run_checkpoints (best0 : ℚ) (accs : List ℚ) : List Bool :=
  (accs.foldl
    (fun st acc =>
      let o := save_best_checkpoint st.1 acc
      (o.new_best, st.2 ++ [o.best_saved]))
    ((best0, []) : ℚ × List Bool)).2

/-- `_validation_step` (lines 394–445), abstracted over the per-sample
(loss, psnr) scores of the validation dataset: both sums are accumulated over
the samples, `test_len` counts them, the averaging division is guarded by
`if test_len > 0` (line 438), and `scheduler.step()` runs when a scheduler is
configured (lines 442–443).  The third component records whether
`scheduler.step()` ran. -/
def validation_step (samples : List (ℚ × ℚ)) (scheduler_active : Bool) :
    ℚ × ℚ × Bool :=
  let total_loss := (samples.map Prod.fst).sum
  let total_acc := (samples.map Prod.snd).sum
  let test_len := samples.length
  let avg :=
    if 0 < test_len then (total_loss / (test_len : ℚ), total_acc / (test_len : ℚ))
    else (total_loss, total_acc)
  (avg.1, avg.2, scheduler_active)

/-- `_check_stop_criteria` (lines 493–494):
`self.get_lr() - self.stop_criteria < -1E-9`. -/
def check_stop_criteria (lr stop_criteria : ℚ) : Bool :=
  decide (lr - stop_criteria < -(1 / 1000000000))

/-- Epoch loop of `fit` (lines 496–504).  `lr_after e` is the learning rate
observed at the end of epoch `e` (the scheduler was already stepped inside
`_validation_step`); the loop body runs the epoch and then breaks when a
scheduler is configured and `_check_stop_criteria()` holds.  Returns the list
of executed epoch numbers; the second argument is the number of epochs still
allowed by the `range`. -/
def fit_loop (sched_active : Bool) (lr_after : ℕ → ℚ) (stop_criteria : ℚ) :
    ℕ → ℕ → List ℕ
  | _, 0 => []
  | e, n + 1 =>
      e ::
        (if sched_active && check_stop_criteria (lr_after e) stop_criteria then []
         else fit_loop sched_active lr_after stop_criteria (e + 1) n)

/-- `fit` (lines 496–504):
`for epoch_num in range(self.resume_epoch, self.epochs + 1)`. -/
def fit_run (sched_active : Bool) (lr_after : ℕ → ℚ) (stop_criteria : ℚ)
    (resume_epoch epochs : ℕ) : List ℕ :=
  fit_loop sched_active lr_after stop_criteria resume_epoch (epochs + 1 - resume_epoch)

theorem haar_rt_aux (x : Img) (i j : ℕ) :
    HaarInverse (HaarForward x) (2*i) (2*j) = x (2*i) (2*j) ∧
    HaarInverse (HaarForward x) (2*i) (2*j+1) = x (2*i) (2*j+1) ∧
    HaarInverse (HaarForward x) (2*i+1) (2*j) = x (2*i+1) (2*j) ∧
    HaarInverse (HaarForward x) (2*i+1) (2*j+1) = x (2*i+1) (2*j+1) := by
  have h1 : (2*i) % 2 = 0 := by omega
  have h2 : (2*i+1) % 2 = 1 := by omega
  have h3 : (2*i) / 2 = i := by omega
  have h4 : (2*i+1) / 2 = i := by omega
  have h5 : (2*j) % 2 = 0 := by omega
  have h6 : (2*j+1) % 2 = 1 := by omega
  have h7 : (2*j) / 2 = j := by omega
  have h8 : (2*j+1) / 2 = j := by omega
  refine ⟨?_, ?_, ?_, ?_⟩ <;>
    simp only [HaarInverse, HaarForward, h1, h2, h3, h4, h5, h6, h7, h8] <;>
    norm_num <;> ring

/-- C6: applying the inverse Haar transform to the four sub-bands produced by
the forward Haar transform reproduces the original image: the round trip is
exact in the rational model (every pixel agrees), in particular the absolute
difference at every pixel is below the 1e-4 tolerance. -/
theorem haar_round_trip (x : Img) (y xc : ℕ) :
    IWTHaar (DWTHaar x).ll (DWTHaar x).lh (DWTHaar x).hl (DWTHaar x).hh y xc
      = x y xc ∧
    |IWTHaar (DWTHaar x).ll (DWTHaar x).lh (DWTHaar x).hl (DWTHaar x).hh y xc
      - x y xc| < 1 / 10000 := by
  have base : HaarInverse (HaarForward x) y xc = x y xc := by
    obtain ⟨i, hi⟩ : ∃ i, y = 2*i ∨ y = 2*i+1 := ⟨y / 2, by omega⟩
    obtain ⟨j, hj⟩ : ∃ j, xc = 2*j ∨ xc = 2*j+1 := ⟨xc / 2, by omega⟩
    rcases hi with hi | hi <;> rcases hj with hj | hj <;> rw [hi, hj]
    · exact (haar_rt_aux x i j).1
    · exact (haar_rt_aux x i j).2.1
    · exact (haar_rt_aux x i j).2.2.1
    · exact (haar_rt_aux x i j).2.2.2
  have main :
      IWTHaar (DWTHaar x).ll (DWTHaar x).lh (DWTHaar x).hl (DWTHaar x).hh y xc
        = x y xc := base
  refine ⟨main, ?_⟩
  rw [main, sub_self, abs_zero]
  norm_num

theorem compose_step_const_zero (v : ℚ) (lvl : PyramidLevel)
    (h1 : lvl.lh = zero_img) (h2 : lvl.hl = zero_img) (h3 : lvl.hh = zero_img) :
    compose_step (const_img v) lvl = const_img v := by
  funext y x
  simp only [compose_step, IWTHaar, HaarInverse, const_img, h1, h2, h3, zero_img]
  split_ifs <;> ring

theorem foldl_compose_const (v : ℚ) :
    ∀ ls : List PyramidLevel,
      (∀ lvl ∈ ls, lvl.lh = zero_img ∧ lvl.hl = zero_img ∧ lvl.hh = zero_img) →
      ls.foldl compose_step (const_img v) = const_img v
  | [], _ => rfl
  | l :: ls, h => by
      have hl := h l (List.mem_cons_self l ls)
      rw [List.foldl_cons, compose_step_const_zero v l hl.1 hl.2.1 hl.2.2]
      exact foldl_compose_const v ls (fun lvl hm => h lvl (List.mem_cons_of_mem l hm))

/-- C7 (amended): applying the reconstruction of `_compute_deep_iwt_loss` to a
pyramid whose detail bands are all zero and whose deepest approximation band
is the constant image of value `v` yields the constant image of value `v`
(not `v * 2^L`): the fixed ×2 rescale exactly cancels the halving performed by
each inverse Haar step, so the value is preserved at every level. -/
theorem deep_iwt_zero_detail_constant (pyr : List PyramidLevel) (v : ℚ)
    (hdet : ∀ lvl ∈ pyr, lvl.lh = zero_img ∧ lvl.hl = zero_img ∧ lvl.hh = zero_img)
    (hlast : pyr.getLast?.map PyramidLevel.approx = some (const_img v)) :
    deep_iwt_compose pyr = some (const_img v) := by
  cases hg : pyr.getLast? with
  | none => rw [hg] at hlast; simp at hlast
  | some deepest =>
      rw [hg] at hlast
      simp only [Option.map_some'] at hlast
      simp only [deep_iwt_compose, hg, Option.map_some']
      rw [Option.some.inj hlast]
      congr 1
      exact foldl_compose_const v pyr.reverse
        (fun lvl hm => hdet lvl (List.mem_reverse.mp hm))

/-- Witness for C7's amended theorem: a concrete two-level pyramid with zero
detail bands, deepest approximation constant 3 (and an unused level-0
approximation constant 5) reconstructs to the constant image 3. -/
theorem deep_iwt_zero_detail_constant_witness :
    deep_iwt_compose
      [⟨const_img 5, zero_img, zero_img, zero_img⟩,
       ⟨const_img 3, zero_img, zero_img, zero_img⟩] = some (const_img 3) := by
  apply deep_iwt_zero_detail_constant
  · intro lvl hm
    rcases List.mem_cons.mp hm with h | h
    · rw [h]; exact ⟨rfl, rfl, rfl⟩
    · rcases List.mem_cons.mp h with h2 | h2
      · rw [h2]; exact ⟨rfl, rfl, rfl⟩
      · exact absurd h2 (List.not_mem_nil lvl)
  · rfl

/-- C7 counterexample: for the concrete input L = 1, v = 1 (a one-level
pyramid with zero detail bands and constant approximation 1), the pixel value
reconstructed by `_compute_deep_iwt_loss` is 1, whereas the claim predicts
`v * 2^L = 2`. -/
theorem deep_iwt_scale_counterexample :
    deep_iwt_compose_at [⟨const_img 1, zero_img, zero_img, zero_img⟩] 0 0
      = some 1 ∧
    ((1 : ℚ) * 2 ^ 1 ≠ 1) := by
  constructor
  · norm_num [deep_iwt_compose_at, deep_iwt_compose, compose_step, IWTHaar,
      HaarInverse, const_img, zero_img, List.getLast?]
  · norm_num

/-- C1: evaluation of `_compute_wavelets_loss` at the failing input.  With
`factor = 0.5` and per-level losses `[1, 1, 1]` the code accumulates
`((1 + 1) * 0.5 + 1) * 0.25 = 0.5`, not the spec-weighted sum
`1 + 0.5 + 0.25 = 1.75`: line 282 multiplies the entire accumulated sum by
the current scale instead of weighting only the new level's term (contrast
`_compute_adversarial_loss`, line 315, which uses `_loss += term * scale`). -/
theorem wavelets_loss_decay_divergence :
    compute_wavelets_loss [1, 1, 1] (1 / 2) = some (1 / 2) ∧
    spec_wavelets_loss [1, 1, 1] (1 / 2) = 7 / 4 ∧
    ((1 : ℚ) / 2) ≠ 7 / 4 := by
  refine ⟨?_, ?_, by norm_num⟩
  · norm_num [compute_wavelets_loss, wavelets_loss_aux, add_loss]
  · norm_num [spec_wavelets_loss, spec_wavelets_loss_from]

/-- C8 counterexample: invoked on an empty pyramid, `_compute_wavelets_loss`
performs zero loop iterations and returns its initial accumulator `None` — a
normal return, not a raised `EmptyPyramidError` (the source contains no raise
statement and defines no such exception, so its embedding is a total
function). -/
theorem wavelets_loss_empty_counterexample :
    compute_wavelets_loss [] (1 / 2) = none := rfl

/-- C8 (amended): for every decay factor, `_compute_wavelets_loss` on an empty
pyramid returns `None` instead of failing. -/
theorem wavelets_loss_empty_returns_none (factor : ℚ) :
    compute_wavelets_loss [] factor = none := rfl

/-- C2 counterexample: the back-propagated `total_loss` of `_train_step` does
not contain the deep inverse reconstruction loss, whether or not a perceptual
loss is configured — `_compute_deep_iwt_loss` is defined but never called in
the per-batch control flow. -/
theorem train_loss_no_deep_iwt :
    mentions_loss (train_total_loss_expr true) .deepIwtLoss = false ∧
    mentions_loss (train_total_loss_expr false) .deepIwtLoss = false := by
  constructor <;> rfl

/-- C2 (amended): per batch, `_train_step` runs zero-grad, model forward, loss
composition, backward, gradient clipping and the optimiser step in that order,
and the back-propagated loss contains the pixel criterion (blended with the
perceptual loss when configured) and the Wavelet Pyramid Loss, but not the
Deep Inverse Reconstruction Loss. -/
theorem train_batch_flow_amended :
    (train_batch_ops true).findIdx? is_model_forward = some 1 ∧
    (train_batch_ops true).findIdx? is_backward = some 2 ∧
    (train_batch_ops true).findIdx? is_clip = some 3 ∧
    (train_batch_ops true).findIdx? is_opt_step = some 4 ∧
    (train_batch_ops false).findIdx? is_model_forward = some 1 ∧
    (train_batch_ops false).findIdx? is_backward = some 2 ∧
    (train_batch_ops false).findIdx? is_clip = some 3 ∧
    (train_batch_ops false).findIdx? is_opt_step = some 4 ∧
    mentions_loss (train_total_loss_expr true) .imagesCriterion = true ∧
    mentions_loss (train_total_loss_expr false) .imagesCriterion = true ∧
    mentions_loss (train_total_loss_expr true) .perceptualLoss = true ∧
    mentions_loss (train_total_loss_expr false) .perceptualLoss = false ∧
    mentions_loss (train_total_loss_expr true) .waveletsPyramidLoss = true ∧
    mentions_loss (train_total_loss_expr false) .waveletsPyramidLoss = true ∧
    mentions_loss (train_total_loss_expr true) .deepIwtLoss = false ∧
    mentions_loss (train_total_loss_expr false) .deepIwtLoss = false := by
  refine ⟨?_, ?_, ?_, ?_, ?_, ?_, ?_, ?_, ?_, ?_, ?_, ?_, ?_, ?_, ?_, ?_⟩ <;> rfl

/-- C5: the optimised per-batch loss equals
`pixel_loss + 0.2 * wavelet_pyramid_loss`, where the pixel term is the image
criterion blended 50/50 with the perceptual loss when one is configured, and
the gradient norm is clipped to 2.0 after `backward` and before
`optimizer.step()`. -/
theorem train_total_loss_and_clip (v : LossAtom → ℚ) :
    eval_loss v (train_total_loss_expr true) =
      (v .imagesCriterion / 2 + v .perceptualLoss / 2)
        + v .waveletsPyramidLoss * 0.2 ∧
    eval_loss v (train_total_loss_expr false) =
      v .imagesCriterion + v .waveletsPyramidLoss * 0.2 ∧
    clip_norms (train_batch_ops true) = [2] ∧
    clip_norms (train_batch_ops false) = [2] ∧
    (train_batch_ops true).findIdx? is_backward = some 2 ∧
    (train_batch_ops true).findIdx? is_clip = some 3 ∧
    (train_batch_ops true).findIdx? is_opt_step = some 4 ∧
    (train_batch_ops false).findIdx? is_backward = some 2 ∧
    (train_batch_ops false).findIdx? is_clip = some 3 ∧
    (train_batch_ops false).findIdx? is_opt_step = some 4 := by
  refine ⟨?_, ?_, ?_, ?_, ?_, ?_, ?_, ?_, ?_, ?_⟩ <;> rfl

theorem foldl_div_sum (f : BatchLosses → ℚ) (n : ℚ) :
    ∀ (l : List BatchLosses) (init : ℚ),
      l.foldl (fun acc b => acc + f b / n) init = init + (l.map f).sum / n
  | [], init => by simp
  | b :: l, init => by
      rw [List.foldl_cons, foldl_div_sum f n l (init + f b / n), List.map_cons,
        List.sum_cons, add_div, add_assoc]

/-- C10: the per-epoch average training loss reported by `_train_step`
averages only the pixel-term `loss` (blended 50/50 with the perceptual loss
when configured): it equals the sum of the per-batch pixel terms divided by
the batch count, it is unchanged when every batch's wavelet pyramid loss is
replaced by an arbitrary value, and the back-propagated total exceeds the
pixel term by exactly the 0.2-weighted wavelet pyramid loss. -/
theorem train_avg_excludes_wavelets (hp : Bool) (batches : List BatchLosses)
    (g : BatchLosses → ℚ) :
    train_epoch_avg_loss hp batches =
      (batches.map (batch_pixel_loss hp)).sum / (batches.length : ℚ) ∧
    train_epoch_avg_loss hp
        (batches.map (fun b => ⟨b.pixel, b.perceptual, g b⟩)) =
      train_epoch_avg_loss hp batches ∧
    (∀ b : BatchLosses,
      batch_total_loss hp b - batch_pixel_loss hp b = b.wavelets * 0.2) := by
  have key : ∀ bs : List BatchLosses,
      train_epoch_avg_loss hp bs =
        (bs.map (batch_pixel_loss hp)).sum / (bs.length : ℚ) := by
    intro bs
    rw [train_epoch_avg_loss, foldl_div_sum (batch_pixel_loss hp)
      ((bs.length : ℚ)) bs 0, zero_add]
  refine ⟨key batches, ?_, ?_⟩
  · rw [key, key]
    have hmap : (batches.map (fun b => (⟨b.pixel, b.perceptual, g b⟩ : BatchLosses))).map
        (batch_pixel_loss hp) = batches.map (batch_pixel_loss hp) := by
      rw [List.map_map]
      refine List.map_congr_left ?_
      intro b _
      cases hp <;> rfl
    rw [hmap, List.length_map]
  · intro b
    rw [batch_total_loss]
    ring

/-- C3: `_save_best_checkpoint` always writes the "latest" record, writes the
"best" record and updates the best score exactly when
`best_test_score - avg_acc_rate < -1e-5`; on the validation accuracy sequence
[10.0, 9.9, 10.2, 10.2000001] starting from best score 0, the "best" record is
written only at steps 1 and 3 (step 4's improvement of 1e-7 is below the
tolerance). -/
theorem checkpoint_best_policy :
    (∀ best acc : ℚ,
      (save_best_checkpoint best acc).latest_saved = true ∧
      ((save_best_checkpoint best acc).best_saved = true ↔
        best - acc < -(1 / 100000)) ∧
      (save_best_checkpoint best acc).new_best =
        (if best - acc < -(1 / 100000) then acc else best)) ∧
    run_checkpoints 0 [10, 99 / 10, 51 / 5, 102000001 / 10000000] =
      [true, false, true, false] := by
  constructor
  · intro best acc
    by_cases h : best - acc < -(1 / 100000)
    · rw [save_best_checkpoint, if_pos h]
      exact ⟨rfl, iff_of_true rfl h, (if_pos h).symm⟩
    · rw [save_best_checkpoint, if_neg h]
      exact ⟨rfl, iff_of_false (by simp) h, (if_neg h).symm⟩
  · norm_num [run_checkpoints, save_best_checkpoint]

/-- C9: with zero validation samples, `_validation_step` returns average loss
0 and average accuracy 0 (the accumulated sums are returned unscaled because
the averaging division is guarded by `test_len > 0`), and the learning-rate
scheduler is still stepped exactly when one is configured. -/
theorem validation_empty_dataset (scheduler_active : Bool) :
    validation_step [] scheduler_active = (0, 0, scheduler_active) := rfl

theorem find?_const_false {α : Type} (l : List α) :
    l.find? (fun _ => false) = none := by
  induction l with
  | nil => rfl
  | cons a l ih => rw [List.find?_cons_of_neg _ (by simp)]; exact ih

theorem fit_loop_eq_find (sa : Bool) (lr : ℕ → ℚ) (stop : ℚ) :
    ∀ (n e : ℕ),
      fit_loop sa lr stop e n =
        (match (List.range' e n).find?
            (fun k => sa && check_stop_criteria (lr k) stop) with
         | some k => List.range' e (k + 1 - e)
         | none => List.range' e n) := by
  intro n
  induction n with
  | zero => intro e; rfl
  | succ n ih =>
      intro e
      by_cases hp : (sa && check_stop_criteria (lr e) stop) = true
      · simp only [List.range'_succ, List.find?_cons, hp, fit_loop, if_true]
        have h1 : e + 1 - e = 1 := by omega
        rw [h1, List.range'_one]
      · have hp' : (sa && check_stop_criteria (lr e) stop) = false :=
          Bool.not_eq_true _ |>.mp hp
        simp only [List.range'_succ, List.find?_cons, hp', fit_loop,
          Bool.false_eq_true, if_false]
        rw [ih (e + 1)]
        cases hf : (List.range' (e + 1) n).find?
            (fun k => sa && check_stop_criteria (lr k) stop) with
        | none => rfl
        | some k =>
            have hk : e + 1 ≤ k := by
              have hm := List.mem_of_find?_eq_some hf
              exact (List.mem_range'_1.mp hm).1
            show e :: List.range' (e + 1) (k + 1 - (e + 1)) =
              List.range' e (k + 1 - e)
            have h2 : k + 1 - (e + 1) = k - e := by omega
            have h1 : k + 1 - e = (k - e) + 1 := by omega
            rw [h1, h2, List.range'_succ]

/-- C4: the epoch loop of `fit` executes epochs `resume_epoch .. epochs` in
order and breaks immediately after the first epoch at whose end a scheduler is
active and `lr - stop_criteria < -1e-9` holds; when no such epoch exists — in
particular whenever no scheduler is active — it runs every epoch up to the
configured maximum. -/
theorem fit_stop_criterion (sa : Bool) (lr : ℕ → ℚ) (stop : ℚ)
    (resume epochs : ℕ) :
    fit_run sa lr stop resume epochs =
      (match (List.range' resume (epochs + 1 - resume)).find?
          (fun k => sa && check_stop_criteria (lr k) stop) with
       | some k => List.range' resume (k + 1 - resume)
       | none => List.range' resume (epochs + 1 - resume)) ∧
    fit_run false lr stop resume epochs =
      List.range' resume (epochs + 1 - resume) := by
  constructor
  · exact fit_loop_eq_find sa lr stop _ _
  · rw [fit_run, fit_loop_eq_find false lr stop]
    simp only [Bool.false_and]
    rw [find?_const_false]

end WPNet
